import Mathlib

/-!
Shallow embedding of the sequential tool-orchestration core of the TradeCP
repository (`backend/calling_mcps.py`, class `MCPChatSystem`), together with
theorems settling the specification claims about it.

Modelling conventions:
* Python strings are Lean `String`s; character-indexed operations
  (`str.find`, slicing) are carried out on `String.data : List Char`.
* External collaborators (the ollama completion endpoint, the `json.loads`
  library routine, the MCP tool registry) are parameters of the model,
  packaged in an `Env` structure.  A Python call that may raise is a Lean
  function returning `Except String α`, the `String` being `str(e)`.
* The unbounded recursion of `_execute_tools_sequentially` is modelled with
  explicit fuel; running out of fuel yields the marker outcome `.diverged`,
  which corresponds to the Python recursion not terminating within that many
  rounds.
* Parameter mappings (Python dicts passed opaquely from the parsed plan to
  `call_tool`) are modelled as association lists of strings; the core never
  inspects them, it only passes them through and records them.
-/

/-- A content part of an MCP tool result (`tool_result[k].text`). -/
structure ContentPart where
  text : String
deriving DecidableEq, Repr

/-- A tool result as returned by `mcp_client.call_tool`: an ordered sequence
of content parts. -/
def ToolResult := List ContentPart
deriving DecidableEq

/-- A parameter mapping, passed opaquely to `call_tool`. -/
def Params := List (String × String)
deriving DecidableEq

/-- One entry of the turn-scoped execution trace (`executed_tools` items):
`{'tool_name': ..., 'parameters': ..., 'result': ...}`.  `tool_name` is an
`Option` because `tool_request.get('tool')` yields `None` when the key is
missing. -/
structure ExecutedTool where
  tool_name : Option String
  parameters : Params
  result : String
deriving DecidableEq

/-- A conversation-history record `{"role": ..., "content": ...}`. -/
structure Msg where
  role : String
  content : String
deriving DecidableEq, Repr

/-! ### The thinking-tag stripper

Embeds the repeated pattern (lines 49-52 and 144-147 of
`backend/calling_mcps.py`):

    if text and '<think>' in text and '</think>' in text:
        start = text.find('<think>')
        end = text.find('</think>') + len('</think>')
        text = text[:start] + text[end:]
-/

/-- Python `s.find(pat)` on character lists: the least index at which `pat`
occurs as a prefix of the remaining list, `none` when there is no occurrence
(Python returns `-1`). -/
def findSub (pat : List Char) : List Char → Option Nat
  | [] => if pat = [] then some 0 else none
  | c :: rest =>
    if pat.isPrefixOf (c :: rest) then some 0
    else (findSub pat rest).map (· + 1)

/-- The literal opening marker `<think>`. -/
def openTag : List Char := "<think>".data

/-- The literal closing marker `</think>`. -/
def closeTag : List Char := "</think>".data

/-- The stripper on character lists.  The guard mirrors the Python truthiness
test `text and '<think>' in text and '</think>' in text`; `start` is the index
of the first `<think>` in the whole text and `end` the index just past the
first `</think>` in the whole text. -/
def stripThinkL (s : List Char) : List Char :=
  if s ≠ [] ∧ (findSub openTag s).isSome ∧ (findSub closeTag s).isSome then
    s.take ((findSub openTag s).getD 0)
      ++ s.drop ((findSub closeTag s).getD 0 + closeTag.length)
  else s

/-- The stripper on strings. -/
def stripThink (s : String) : String :=
  ⟨stripThinkL s.data⟩

example : stripThink "<think>internal</think>final answer" = "final answer" := by decide
example : stripThink "no tags here" = "no tags here" := by decide
example : stripThink "<think>open only" = "<think>open only" := by decide

/-- Python `str.strip()`: leading and trailing whitespace removed. -/
def pyStrip (s : String) : String :=
  ⟨((s.data.dropWhile Char.isWhitespace).reverse.dropWhile Char.isWhitespace).reverse⟩

example : pyStrip "  [ ]\n" = "[ ]" := by decide

/-! ### Parsed plan values

`json.loads(planning_text)` is an external library call; its possible results
are modelled by `PyVal`, classified exactly by what the subsequent repository
code (lines 159-162) does with the value:

* `.list items` — a JSON array; the code tests `tool_requests and
  len(tool_requests) > 0` and indexes `tool_requests[0]`;
* `.falsy` — any non-list falsy value (`null`, `0`, `""`, `{}`, `false`):
  the truthiness test fails and the code takes the no-more-tools branch;
* `.truthyNonList emsg` — any truthy non-list value (a non-empty dict or
  string, a non-zero number): `len(...)` or `[0]` or `.get` raises; `emsg` is
  the message of the exception the runtime raises, caught by the outer
  `except Exception` handler.

A list element is either a JSON object — from which the code reads
`.get('tool')` and `.get('params', {})`, both keys optional — or a non-object
(`.nonObj emsg`), on which `.get` raises `emsg` into the outer handler. -/

inductive PyItem where
  | obj (tool : Option String) (params : Option Params)
  | nonObj (emsg : String)
deriving DecidableEq

inductive PyVal where
  | list (items : List PyItem)
  | falsy
  | truthyNonList (emsg : String)
deriving DecidableEq

/-- The external collaborators of one turn, as consumed by
`_execute_tools_sequentially`:

* `planChat trace` — the `ollama.chat` planning call of the round whose
  accumulated `executed_tools` is `trace` (the planning prompt is a function
  of the fixed query and `trace`), returning the reply's message content or
  raising;
* `jsonLoads text` — the `json.loads` library routine, raising
  `JSONDecodeError` or returning a parsed value;
* `callTool name params` — `mcp_client.call_tool`, returning an ordered
  sequence of content parts or raising;
* `synthChat trace` — the `ollama.chat` call made by
  `_generate_comprehensive_response` for the trace `trace`;
* `directChat` — the `ollama.chat` call made by `_generate_direct_response`
  for the turn's query. -/
structure Env where
  planChat : List ExecutedTool → Except String String
  jsonLoads : String → Except String PyVal
  callTool : Option String → Params → Except String ToolResult
  synthChat : List ExecutedTool → Except String String
  directChat : Except String String

/-- Which terminal branch of `_execute_tools_sequentially` produced the
turn's final text:

* `.synthesis` — `_generate_comprehensive_response` (trace non-empty);
* `.direct` — `_generate_direct_response` (no tool executed);
* `.errorString` — the literal `return f"Error in query processing: {str(e)}"`
  of the outer exception handler with an empty trace;
* `.diverged` — the recursion did not terminate within the available fuel. -/
inductive FinalPath where
  | synthesis
  | direct
  | errorString
  | diverged
deriving DecidableEq

/-- The observable outcome of one turn: which terminal branch fired, the
returned text, the final execution trace, and the conversation history. -/
structure TurnOutcome where
  path : FinalPath
  response : String
  trace : List ExecutedTool
  history : List Msg
deriving DecidableEq

/-- `tool_output = tool_result[0].text if tool_result else "No result"`
(line 169): the text of the first content part, or the literal `"No result"`
for an empty sequence (Python truthiness of a list). -/
def resultText : ToolResult → String
  | [] => "No result"
  | c :: _ => c.text

/-- Python `sep.join(parts)`: the parts concatenated with `sep` between
consecutive parts. -/
def joinSep (sep : String) : List String → String
  | [] => ""
  | [x] => x
  | x :: y :: rest => x ++ sep ++ joinSep sep (y :: rest)

/-- The fallback of `_generate_comprehensive_response` (line 284):
`f"Based on the collected information: {' '.join([r['result'] for r in tool_results])}"`. -/
def fallbackResponse (tool_results : List ExecutedTool) : String :=
  "Based on the collected information: "
    ++ joinSep " " (tool_results.map (·.result))

/-- `_generate_comprehensive_response` with the completion call's outcome
supplied: on success the reply content is `.strip()`-ped and returned; on any
exception the deterministic `fallbackResponse` is returned (lines 275-284). -/
def generate_comprehensive_response (chat : Except String String)
    (tool_results : List ExecutedTool) : String :=
  match chat with
  | .ok s => pyStrip s
  | .error _ => fallbackResponse tool_results

/-- `_generate_direct_response` (lines 236-253): on success the stripped
reply is appended to the conversation history as an assistant message and
returned; on exception the string `"Error generating response: " ++ e` is
returned and the history is left unchanged. -/
def generate_direct_response (chat : Except String String)
    (hist : List Msg) : String × List Msg :=
  match chat with
  | .ok s => (pyStrip s, hist ++ [⟨"assistant", pyStrip s⟩])
  | .error e => ("Error generating response: " ++ e, hist)

/-- The classified outcome of one planning step (lines 133-157): the
`ollama.chat` call, `.strip()`, the thinking-tag strip of lines 144-147, the
`if planning_text:` truthiness test of line 154, and `json.loads`. -/
inductive PlanOutcome where
  | transportError (emsg : String)
  | emptyText
  | parseError
  | parsed (v : PyVal)
deriving DecidableEq

/-- Performs the planning step of one round against the environment. -/
def planOutcome (env : Env) (trace : List ExecutedTool) : PlanOutcome :=
  match env.planChat trace with
  | .error e => .transportError e
  | .ok raw =>
    let planning_text := stripThink (pyStrip raw)
    if planning_text = "" then .emptyText
    else
      match env.jsonLoads planning_text with
      | .error _ => .parseError
      | .ok v => .parsed v

/-- The no-more-tools terminal branch (lines 199-208, also reached from the
`else` of line 210 and the `JSONDecodeError` handler of line 219): with a
non-empty trace, synthesize and append the assistant reply to the history;
with an empty trace, generate a direct response. -/
def noMoreTools (env : Env) (trace : List ExecutedTool) (hist : List Msg) :
    TurnOutcome :=
  match trace with
  | [] =>
    let p := generate_direct_response env.directChat hist
    ⟨.direct, p.1, [], p.2⟩
  | _ =>
    let r := generate_comprehensive_response (env.synthChat trace) trace
    ⟨.synthesis, r, trace, hist ++ [⟨"assistant", r⟩]⟩

/-- The outer `except Exception` handler (lines 228-234): with a non-empty
trace, synthesize and append to the history; with an empty trace, return the
string `"Error in query processing: " ++ e` without touching the history. -/
def outerCatch (env : Env) (trace : List ExecutedTool) (hist : List Msg)
    (e : String) : TurnOutcome :=
  match trace with
  | [] => ⟨.errorString, "Error in query processing: " ++ e, [], hist⟩
  | _ =>
    let r := generate_comprehensive_response (env.synthChat trace) trace
    ⟨.synthesis, r, trace, hist ++ [⟨"assistant", r⟩]⟩

/-- The trace entry appended by one tool dispatch (lines 166-197): on
success the entry records `resultText` of the tool result, on a `call_tool`
exception it records `"Error: " ++ str(e)`; either way the tool name and
parameters of the request are recorded. -/
def dispatchEntry (env : Env) (tool : Option String) (parameters : Params) :
    ExecutedTool :=
  match env.callTool tool parameters with
  | .ok res => ⟨tool, parameters, resultText res⟩
  | .error e => ⟨tool, parameters, "Error: " ++ e⟩

/-- `_execute_tools_sequentially` (lines 90-234), with fuel standing for the
recursion depth still available.  Each round plans; a parsed non-empty array
whose first object yields a dispatch appends exactly one trace entry and
recurses (both on success and on an absorbed `call_tool` exception); every
other planning outcome is terminal.  Only the first array element is ever
examined; `tool_request.get('tool')` may be `none` and
`tool_request.get('params', {})` defaults a missing params key to the empty
mapping. -/
def executeTools (env : Env) : Nat → List ExecutedTool → List Msg → TurnOutcome
  | 0, trace, hist => ⟨.diverged, "", trace, hist⟩
  | fuel + 1, trace, hist =>
    match planOutcome env trace with
    | .transportError e => outerCatch env trace hist e
    | .emptyText => noMoreTools env trace hist
    | .parseError => noMoreTools env trace hist
    | .parsed .falsy => noMoreTools env trace hist
    | .parsed (.truthyNonList e) => outerCatch env trace hist e
    | .parsed (.list []) => noMoreTools env trace hist
    | .parsed (.list (.nonObj e :: _)) => outerCatch env trace hist e
    | .parsed (.list (.obj tool params? :: _)) =>
      executeTools env fuel (trace ++ [dispatchEntry env tool (params?.getD [])]) hist

/-- `_process_query_automatically` (lines 81-88): append the user query to
the conversation history, then run the executor with an empty trace. -/
def processQueryAutomatically (env : Env) (fuel : Nat) (q : String)
    (hist : List Msg) : TurnOutcome :=
  executeTools env fuel [] (hist ++ [⟨"user", q⟩])

/-- A user input of the interactive loop of `start_chat`, as classified by
lines 31-45: `quit`, `clear`, `tools`, blank input, or a free-text query. -/
inductive UserCmd where
  | quit
  | clear
  | tools
  | blank
  | query (q : String)

/-- The effect of one iteration of the `start_chat` loop on the conversation
history (lines 27-53): `clear` resets it to empty (line 35), `quit`/`tools`/
blank input leave it unchanged, and a query runs one turn. -/
def loopStep (env : Env) (fuel : Nat) (hist : List Msg) :
    UserCmd → List Msg
  | .quit => hist
  | .clear => []
  | .tools => hist
  | .blank => hist
  | .query q => (processQueryAutomatically env fuel q hist).history

/-! ### Basic lemmas about the terminal branches and the executor -/

theorem noMoreTools_trace (env : Env) (trace : List ExecutedTool)
    (hist : List Msg) : (noMoreTools env trace hist).trace = trace := by
  cases trace <;> rfl

theorem outerCatch_trace (env : Env) (trace : List ExecutedTool)
    (hist : List Msg) (e : String) :
    (outerCatch env trace hist e).trace = trace := by
  cases trace <;> rfl

theorem noMoreTools_history (env : Env) (trace : List ExecutedTool)
    (hist : List Msg) :
    ∃ tail, (noMoreTools env trace hist).history = hist ++ tail ∧
      (tail = [] ∨ ∃ r, tail = [⟨"assistant", r⟩]) := by
  cases trace with
  | nil =>
    cases hd : env.directChat with
    | ok s =>
      refine ⟨[⟨"assistant", pyStrip s⟩], ?_, Or.inr ⟨pyStrip s, rfl⟩⟩
      simp [noMoreTools, generate_direct_response, hd]
    | error e =>
      refine ⟨[], ?_, Or.inl rfl⟩
      simp [noMoreTools, generate_direct_response, hd]
  | cons a as =>
    exact ⟨[⟨"assistant",
        generate_comprehensive_response (env.synthChat (a :: as)) (a :: as)⟩],
      rfl, Or.inr ⟨_, rfl⟩⟩

theorem outerCatch_history (env : Env) (trace : List ExecutedTool)
    (hist : List Msg) (e : String) :
    ∃ tail, (outerCatch env trace hist e).history = hist ++ tail ∧
      (tail = [] ∨ ∃ r, tail = [⟨"assistant", r⟩]) := by
  cases trace with
  | nil => exact ⟨[], by simp [outerCatch], Or.inl rfl⟩
  | cons a as =>
    exact ⟨[⟨"assistant",
        generate_comprehensive_response (env.synthChat (a :: as)) (a :: as)⟩],
      rfl, Or.inr ⟨_, rfl⟩⟩

/-- The execution trace is append-only: the executor only ever extends the
trace it was handed. -/
theorem executeTools_trace_append (env : Env) :
    ∀ (fuel : Nat) (trace : List ExecutedTool) (hist : List Msg),
      ∃ ext, (executeTools env fuel trace hist).trace = trace ++ ext := by
  intro fuel
  induction fuel with
  | zero => exact fun trace hist => ⟨[], by simp [executeTools]⟩
  | succ n ih =>
    intro trace hist
    cases h : planOutcome env trace with
    | transportError e =>
      exact ⟨[], by simp [executeTools, h, outerCatch_trace]⟩
    | emptyText => exact ⟨[], by simp [executeTools, h, noMoreTools_trace]⟩
    | parseError => exact ⟨[], by simp [executeTools, h, noMoreTools_trace]⟩
    | parsed v =>
      cases v with
      | falsy => exact ⟨[], by simp [executeTools, h, noMoreTools_trace]⟩
      | truthyNonList e =>
        exact ⟨[], by simp [executeTools, h, outerCatch_trace]⟩
      | list items =>
        cases items with
        | nil => exact ⟨[], by simp [executeTools, h, noMoreTools_trace]⟩
        | cons hd tl =>
          cases hd with
          | nonObj e =>
            exact ⟨[], by simp [executeTools, h, outerCatch_trace]⟩
          | obj tool params? =>
            obtain ⟨ext, hext⟩ :=
              ih (trace ++ [dispatchEntry env tool (params?.getD [])]) hist
            refine ⟨dispatchEntry env tool (params?.getD []) :: ext, ?_⟩
            simp only [executeTools, h]
            rw [hext, List.append_assoc]
            rfl

/-- The conversation history is append-only within a turn, and the executor
appends at most one assistant message to it. -/
theorem executeTools_history_append (env : Env) :
    ∀ (fuel : Nat) (trace : List ExecutedTool) (hist : List Msg),
      ∃ tail, (executeTools env fuel trace hist).history = hist ++ tail ∧
        (tail = [] ∨ ∃ r, tail = [⟨"assistant", r⟩]) := by
  intro fuel
  induction fuel with
  | zero => exact fun trace hist => ⟨[], by simp [executeTools], Or.inl rfl⟩
  | succ n ih =>
    intro trace hist
    cases h : planOutcome env trace with
    | transportError e =>
      obtain ⟨tail, h1, h2⟩ := outerCatch_history env trace hist e
      exact ⟨tail, by simpa [executeTools, h] using h1, h2⟩
    | emptyText =>
      obtain ⟨tail, h1, h2⟩ := noMoreTools_history env trace hist
      exact ⟨tail, by simpa [executeTools, h] using h1, h2⟩
    | parseError =>
      obtain ⟨tail, h1, h2⟩ := noMoreTools_history env trace hist
      exact ⟨tail, by simpa [executeTools, h] using h1, h2⟩
    | parsed v =>
      cases v with
      | falsy =>
        obtain ⟨tail, h1, h2⟩ := noMoreTools_history env trace hist
        exact ⟨tail, by simpa [executeTools, h] using h1, h2⟩
      | truthyNonList e =>
        obtain ⟨tail, h1, h2⟩ := outerCatch_history env trace hist e
        exact ⟨tail, by simpa [executeTools, h] using h1, h2⟩
      | list items =>
        cases items with
        | nil =>
          obtain ⟨tail, h1, h2⟩ := noMoreTools_history env trace hist
          exact ⟨tail, by simpa [executeTools, h] using h1, h2⟩
        | cons hd tl =>
          cases hd with
          | nonObj e =>
            obtain ⟨tail, h1, h2⟩ := outerCatch_history env trace hist e
            exact ⟨tail, by simpa [executeTools, h] using h1, h2⟩
          | obj tool params? =>
            obtain ⟨tail, h1, h2⟩ :=
              ih (trace ++ [dispatchEntry env tool (params?.getD [])]) hist
            exact ⟨tail, by simpa [executeTools, h] using h1, h2⟩

/-! ### C1 — termination under an always-planning planner -/

/-- C1.  The claim says the executor terminates within a configured maximum
round count when the planner returns a non-empty tool request on every
round.  `_execute_tools_sequentially` has no round bound: whenever every
planning round parses to a non-empty array headed by a tool object, the
recursion consumes any amount of fuel without ever reaching a terminal
branch — the reply's path is the divergence marker for every fuel value, so
the Python original recurses indefinitely. -/
theorem executeTools_diverges_of_always_tool (env : Env)
    (hp : ∀ tr, ∃ t p rest,
      planOutcome env tr = .parsed (.list (.obj t p :: rest))) :
    ∀ (fuel : Nat) (trace : List ExecutedTool) (hist : List Msg),
      (executeTools env fuel trace hist).path = .diverged := by
  intro fuel
  induction fuel with
  | zero => intro trace hist; rfl
  | succ n ih =>
    intro trace hist
    obtain ⟨t, p, rest, heq⟩ := hp trace
    simp only [executeTools, heq]
    exact ih _ _

/-- An environment whose mocked planner asks for the same tool on every
round: the completion endpoint answers a fixed non-empty text that parses to
the one-object array `[{"tool": "t", "params": {}}]`. -/
def alwaysToolEnv : Env where
  planChat := fun _ => .ok "plan"
  jsonLoads := fun _ => .ok (.list [.obj (some "t") (some [])])
  callTool := fun _ _ => .ok [⟨"ok"⟩]
  synthChat := fun _ => .ok "synth"
  directChat := .ok "direct"

theorem alwaysToolEnv_plan (tr : List ExecutedTool) :
    planOutcome alwaysToolEnv tr = .parsed (.list [.obj (some "t") (some [])]) :=
  rfl

theorem executeTools_diverges_witness :
    (executeTools alwaysToolEnv 7 [] []).path = .diverged :=
  executeTools_diverges_of_always_tool alwaysToolEnv
    (fun tr => ⟨some "t", some [], [], alwaysToolEnv_plan tr⟩) 7 [] []

/-! ### C2 / C3 — traces produced by a scripted planner -/

/-- One scripted planning round: the model reply parses to a non-empty JSON
array whose first object carries `tool` and `params`; `extra` is whatever
further array elements the reply contains (the code never looks past index
0). -/
structure PlannedRound where
  tool : String
  params : Params
  extra : List PyItem
deriving DecidableEq

/-- The planning outcome of a planner scripted by `rounds`: round `k`
(for `k` below `rounds.length`) parses to the non-empty array of round `k`,
and every later round parses to the empty array (the termination signal). -/
def planFromRounds (rounds : List PlannedRound) (k : Nat) : PlanOutcome :=
  match rounds[k]? with
  | some r => .parsed (.list (.obj (some r.tool) (some r.params) :: r.extra))
  | none => .parsed (.list [])

/-- `dispatchEntry` records the requested tool name and parameters verbatim,
whatever the registry call returns. -/
theorem dispatchEntry_fields (env : Env) (tool : Option String) (p : Params) :
    (dispatchEntry env tool p).tool_name = tool ∧
      (dispatchEntry env tool p).parameters = p := by
  cases h : env.callTool tool p <;> simp [dispatchEntry, h]

/-- Running the executor against a planner scripted by `rounds`, starting
from any accumulated trace, executes exactly the remaining rounds in order
and then takes the no-more-tools branch. -/
theorem executeTools_rounds (env : Env) (rounds : List PlannedRound)
    (hplan : ∀ tr, planOutcome env tr = planFromRounds rounds tr.length) :
    ∀ (rem : Nat) (acc : List ExecutedTool) (hist : List Msg) (fuel : Nat),
      acc.length + rem = rounds.length → rem < fuel →
      executeTools env fuel acc hist =
        noMoreTools env
          (acc ++ (rounds.drop acc.length).map
            (fun r => dispatchEntry env (some r.tool) r.params)) hist := by
  intro rem
  induction rem with
  | zero =>
    intro acc hist fuel hlen hfuel
    cases fuel with
    | zero => omega
    | succ n =>
      have hnone : rounds[acc.length]? = none :=
        List.getElem?_eq_none (by omega)
      have hdrop : rounds.drop acc.length = [] :=
        List.drop_eq_nil_of_le (by omega)
      rw [hdrop]
      simp only [executeTools, hplan acc, planFromRounds, hnone, List.map_nil,
        List.append_nil]
  | succ m ih =>
    intro acc hist fuel hlen hfuel
    cases fuel with
    | zero => omega
    | succ n =>
      have hlt : acc.length < rounds.length := by omega
      have hsome : rounds[acc.length]? = some (rounds.get ⟨acc.length, hlt⟩) :=
        List.getElem?_eq_getElem hlt
      have step : executeTools env (n + 1) acc hist =
          executeTools env n
            (acc ++ [dispatchEntry env (some (rounds.get ⟨acc.length, hlt⟩).tool)
              (rounds.get ⟨acc.length, hlt⟩).params]) hist := by
        simp only [executeTools, hplan acc, planFromRounds, hsome, Option.getD]
      have hacc : (acc ++ [dispatchEntry env
          (some (rounds.get ⟨acc.length, hlt⟩).tool)
          (rounds.get ⟨acc.length, hlt⟩).params]).length = acc.length + 1 := by
        simp
      have hdrop : rounds.drop acc.length =
          rounds.get ⟨acc.length, hlt⟩ :: rounds.drop (acc.length + 1) :=
        List.drop_eq_getElem_cons hlt
      rw [step, ih _ hist n (by rw [hacc]; omega) (by omega), hacc, hdrop,
        List.map_cons]
      simp only [List.append_assoc, List.singleton_append]

/-- C2.  A scripted planner that issues `N` well-formed tool requests and
then terminates yields a trace of exactly the `N` dispatch entries in round
order; each entry records that round's tool name and parameters, and the
whole outcome is independent of the extra array elements of each round
(only the first object of each reply is acted upon). -/
theorem executeTools_scripted_trace (env : Env) (rounds : List PlannedRound)
    (hist : List Msg) (fuel : Nat)
    (hplan : ∀ tr, planOutcome env tr = planFromRounds rounds tr.length)
    (hfuel : rounds.length < fuel) :
    (executeTools env fuel [] hist).trace =
        rounds.map (fun r => dispatchEntry env (some r.tool) r.params) ∧
      (executeTools env fuel [] hist).trace.length = rounds.length ∧
      (executeTools env fuel [] hist).trace.map
          (fun e => (e.tool_name, e.parameters)) =
        rounds.map (fun r => (some r.tool, r.params)) := by
  have h := executeTools_rounds env rounds hplan rounds.length [] hist fuel
    (by simp) hfuel
  simp only [List.length_nil, List.drop_zero, List.nil_append] at h
  have htr : (executeTools env fuel [] hist).trace =
      rounds.map (fun r => dispatchEntry env (some r.tool) r.params) := by
    rw [h, noMoreTools_trace]
  refine ⟨htr, by rw [htr]; simp, ?_⟩
  rw [htr, List.map_map]
  refine List.map_congr_left fun r _ => ?_
  have hf := dispatchEntry_fields env (some r.tool) r.params
  simp [Function.comp, hf.1, hf.2]

/-- C3.  If the registry raises on the `k`-th scripted round, the turn's
trace still has one entry per round, and the `k`-th entry records
`"Error: " ++ str(e)` with that round's tool name and parameters — the
exception is absorbed and the loop proceeds through all remaining rounds. -/
theorem executeTools_tool_error_absorbed (env : Env)
    (rounds : List PlannedRound) (hist : List Msg) (fuel k : Nat)
    (r : PlannedRound) (msg : String)
    (hplan : ∀ tr, planOutcome env tr = planFromRounds rounds tr.length)
    (hfuel : rounds.length < fuel)
    (hk : rounds[k]? = some r)
    (herr : env.callTool (some r.tool) r.params = .error msg) :
    (executeTools env fuel [] hist).trace.length = rounds.length ∧
      (executeTools env fuel [] hist).trace[k]? =
        some ⟨some r.tool, r.params, "Error: " ++ msg⟩ := by
  have h := executeTools_rounds env rounds hplan rounds.length [] hist fuel
    (by simp) hfuel
  simp only [List.length_nil, List.drop_zero, List.nil_append] at h
  have htr : (executeTools env fuel [] hist).trace =
      rounds.map (fun r => dispatchEntry env (some r.tool) r.params) := by
    rw [h, noMoreTools_trace]
  refine ⟨by rw [htr]; simp, ?_⟩
  rw [htr, List.getElem?_map _ rounds k, hk]
  simp [dispatchEntry, herr]

/-- Two scripted rounds mirroring the end-to-end scenario of the spec: a
ticker lookup, then a price fetch whose reply array carries an extra element
that the code must ignore. -/
def wRounds : List PlannedRound :=
  [⟨"get_ticker_from_name", [("name", "Apple Inc")], []⟩,
   ⟨"get_stock_price", [("ticker", "AAPL")],
     [.obj (some "ignored_second_element") (some [])]⟩]

/-- The planning reply text the mocked completion endpoint returns on round
`k`. -/
def wPlanText (k : Nat) : String :=
  match k with
  | 0 => "round0"
  | 1 => "round1"
  | _ => "done"

/-- The mocked `json.loads`: maps each scripted reply text to its parsed
value. -/
def wJson (s : String) : PyVal :=
  if s = "round0" then
    .list [.obj (some "get_ticker_from_name") (some [("name", "Apple Inc")])]
  else if s = "round1" then
    .list [.obj (some "get_stock_price") (some [("ticker", "AAPL")]),
      .obj (some "ignored_second_element") (some [])]
  else .list []

/-- A concrete environment scripted by `wRounds`, whose registry raises on
the price tool and answers the ticker tool. -/
def wEnv : Env where
  planChat := fun tr => .ok (wPlanText tr.length)
  jsonLoads := fun s => .ok (wJson s)
  callTool := fun t _ =>
    if t = some "get_stock_price" then .error "boom" else .ok [⟨"AAPL"⟩]
  synthChat := fun _ => .ok "final answer"
  directChat := .ok "direct answer"

theorem wEnv_plan (tr : List ExecutedTool) :
    planOutcome wEnv tr = planFromRounds wRounds tr.length := by
  simp only [planOutcome, wEnv]
  generalize tr.length = k
  rcases k with _ | _ | k <;> rfl

theorem executeTools_scripted_trace_witness :
    (executeTools wEnv 3 [] []).trace =
        wRounds.map (fun r => dispatchEntry wEnv (some r.tool) r.params) ∧
      (executeTools wEnv 3 [] []).trace.length = wRounds.length ∧
      (executeTools wEnv 3 [] []).trace.map
          (fun e => (e.tool_name, e.parameters)) =
        wRounds.map (fun r => (some r.tool, r.params)) :=
  executeTools_scripted_trace wEnv wRounds [] 3 wEnv_plan (by decide)

theorem executeTools_tool_error_absorbed_witness :
    (executeTools wEnv 3 [] []).trace.length = wRounds.length ∧
      (executeTools wEnv 3 [] []).trace[1]? =
        some ⟨some "get_stock_price", [("ticker", "AAPL")], "Error: " ++ "boom"⟩ :=
  executeTools_tool_error_absorbed wEnv wRounds [] 3 1
    ⟨"get_stock_price", [("ticker", "AAPL")],
      [.obj (some "ignored_second_element") (some [])]⟩ "boom"
    wEnv_plan (by decide) (by decide) rfl

/-! ### C4 — behavior on unusable planning replies -/

/-- An environment whose planner replies with valid JSON that is not an
array (the number `5`): `len(5)` raises a `TypeError` into the outer
handler. -/
def nonArrayEnv : Env where
  planChat := fun _ => .ok "5"
  jsonLoads := fun _ => .ok (.truthyNonList "object of type 'int' has no len()")
  callTool := fun _ _ => .ok [⟨"ok"⟩]
  synthChat := fun _ => .ok "synthesized"
  directChat := .ok "direct answer"

/-- C4 counterexample.  The claim says a planning reply that is valid JSON
but not an array is answered through the direct-response path when the trace
is empty.  On the reply `5` with an empty trace the code instead returns the
outer handler's `"Error in query processing: ..."` string: the path is the
error-string branch, not the direct-response branch, and the response is not
the direct client's answer. -/
theorem executeTools_nonarray_not_direct :
    (executeTools nonArrayEnv 1 [] []).path = .errorString ∧
      (executeTools nonArrayEnv 1 [] []).path ≠ .direct ∧
      (executeTools nonArrayEnv 1 [] []).response =
        "Error in query processing: object of type 'int' has no len()" := by
  refine ⟨rfl, by decide, rfl⟩

/-- C4 amended.  A planning round that yields no usable tool request is
never retried and never raises; the trace is left as it is and the turn ends
this round.  Replies that are empty after stripping, fail JSON parsing, or
parse to a falsy value or an empty array end in synthesis when the trace is
non-empty and in the direct-response path when it is empty (as claimed).
But replies that parse to a truthy non-array value (or whose planning
transport call raises, or whose first array element is not an object) land
in the outer exception handler: synthesis when the trace is non-empty, and
the literal `"Error in query processing: " ++ str(e)` string — not the
direct-response path — when the trace is empty. -/
theorem executeTools_plan_failure_paths (env : Env)
    (trace : List ExecutedTool) (hist : List Msg) (fuel : Nat) :
    ((planOutcome env trace = .emptyText ∨ planOutcome env trace = .parseError ∨
        planOutcome env trace = .parsed .falsy ∨
        planOutcome env trace = .parsed (.list [])) →
      (executeTools env (fuel + 1) trace hist).trace = trace ∧
        (executeTools env (fuel + 1) trace hist).path =
          (if trace = [] then .direct else .synthesis)) ∧
    (∀ e, (planOutcome env trace = .transportError e ∨
        planOutcome env trace = .parsed (.truthyNonList e) ∨
        ∃ rest, planOutcome env trace = .parsed (.list (.nonObj e :: rest))) →
      (executeTools env (fuel + 1) trace hist).trace = trace ∧
        (executeTools env (fuel + 1) trace hist).path =
          (if trace = [] then .errorString else .synthesis) ∧
        (trace = [] → (executeTools env (fuel + 1) trace hist).response =
          "Error in query processing: " ++ e)) := by
  constructor
  · intro h
    have hnm : executeTools env (fuel + 1) trace hist =
        noMoreTools env trace hist := by
      rcases h with h | h | h | h <;> simp only [executeTools, h]
    rw [hnm]
    cases trace with
    | nil => exact ⟨rfl, rfl⟩
    | cons a as => exact ⟨rfl, by simp [noMoreTools]⟩
  · intro e h
    have hoc : executeTools env (fuel + 1) trace hist =
        outerCatch env trace hist e := by
      rcases h with h | h | ⟨rest, h⟩ <;> simp only [executeTools, h]
    rw [hoc]
    cases trace with
    | nil => exact ⟨rfl, rfl, fun _ => rfl⟩
    | cons a as =>
      exact ⟨rfl, by simp [outerCatch], fun hcontr => by cases hcontr⟩

/-- An environment whose planner reply fails JSON parsing. -/
def parseFailEnv : Env where
  planChat := fun _ => .ok "not json"
  jsonLoads := fun _ => .error "Expecting value: line 1 column 1 (char 0)"
  callTool := fun _ _ => .ok [⟨"ok"⟩]
  synthChat := fun _ => .ok "synthesized"
  directChat := .ok "direct answer"

theorem executeTools_plan_failure_paths_witness :
    (executeTools parseFailEnv 1 [] []).trace = [] ∧
      (executeTools parseFailEnv 1 [] []).path =
        (if ([] : List ExecutedTool) = [] then .direct else .synthesis) :=
  (executeTools_plan_failure_paths parseFailEnv [] [] 0).1
    (Or.inr (Or.inl rfl))

/-! ### C5 / C9 — properties of the thinking-tag stripper -/

/-- When either marker has no occurrence, the guard fails and the text is
returned unchanged. -/
theorem stripThinkL_id_of_missing (s : List Char)
    (h : findSub openTag s = none ∨ findSub closeTag s = none) :
    stripThinkL s = s := by
  rcases h with h | h <;> simp [stripThinkL, h]

/-- C5 counterexample.  On `"a</think><think>x</think>b"` — whose first
closing marker precedes its first opening marker — the claim prescribes
removing the span from the opening marker through the end of the first
closing marker that follows it, giving `"a</think>b"`.  The code instead
uses the first closing marker of the whole text: it splices
`take 9 ++ drop 9` and returns the text unchanged, so the output differs
from the claimed one. -/
theorem stripThink_not_span_of_following_close :
    stripThink "a</think><think>x</think>b" = "a</think><think>x</think>b" ∧
      stripThink "a</think><think>x</think>b" ≠ "a</think>b" := by
  refine ⟨by decide, by decide⟩

/-- C5 amended.  The stripper is a pure total function.  If the text
decomposes as `a ++ "<think>" ++ b ++ "</think>" ++ c` where the first
occurrence of the opening marker starts at `a.length` and the first
occurrence of the closing marker in the whole text starts right after that
`b` — that is, the first closing marker lies after the first opening
marker — then the span from the opening marker through the end of that
closing marker is removed and the surrounding text concatenated.  If either
marker is absent, the text is returned unchanged.  (When the text contains
both markers but its first closing marker precedes its first opening
marker, the code instead splices around those indices, which can leave the
text unchanged or duplicate a segment — the counterexample.) -/
theorem stripThink_spec :
    (∀ a b c : List Char,
      findSub openTag (a ++ openTag ++ b ++ closeTag ++ c) = some a.length →
      findSub closeTag (a ++ openTag ++ b ++ closeTag ++ c) =
        some (a.length + openTag.length + b.length) →
      stripThinkL (a ++ openTag ++ b ++ closeTag ++ c) = a ++ c) ∧
    (∀ s : List Char,
      (findSub openTag s = none ∨ findSub closeTag s = none) →
      stripThinkL s = s) := by
  refine ⟨?_, stripThinkL_id_of_missing⟩
  intro a b c h1 h2
  have hne : a ++ openTag ++ b ++ closeTag ++ c ≠ [] := by
    intro h
    rw [h] at h1
    have : findSub openTag ([] : List Char) = none := by decide
    rw [this] at h1
    cases h1
  have hopen : (findSub openTag (a ++ openTag ++ b ++ closeTag ++ c)).isSome := by
    rw [h1]; rfl
  have hclose : (findSub closeTag (a ++ openTag ++ b ++ closeTag ++ c)).isSome := by
    rw [h2]; rfl
  unfold stripThinkL
  rw [if_pos ⟨hne, hopen, hclose⟩, h1, h2]
  simp only [Option.getD_some]
  have htake : (a ++ openTag ++ b ++ closeTag ++ c).take a.length = a := by
    have hs : a ++ openTag ++ b ++ closeTag ++ c =
        a ++ (openTag ++ b ++ closeTag ++ c) := by
      simp [List.append_assoc]
    rw [hs, List.take_left]
  have hdrop : (a ++ openTag ++ b ++ closeTag ++ c).drop
      (a.length + openTag.length + b.length + closeTag.length) = c :=
    List.drop_left' (by simp [List.length_append]; omega)
  rw [htake, hdrop]

theorem stripThink_spec_witness :
    stripThinkL ("XY".data ++ openTag ++ "hidden".data ++ closeTag ++ "Z".data)
        = "XY".data ++ "Z".data ∧
      stripThinkL "no tags".data = "no tags".data :=
  ⟨stripThink_spec.1 "XY".data "hidden".data "Z".data (by decide) (by decide),
   stripThink_spec.2 "no tags".data (Or.inl (by decide))⟩

/-- C9 counterexample.  The stripper is not idempotent: on
`"<think></think><think></think>"` the first application removes only the
first marker pair, leaving `"<think></think>"`, and a second application
strips again, yielding the empty string. -/
theorem stripThink_not_idempotent :
    stripThink (stripThink "<think></think><think></think>") ≠
      stripThink "<think></think><think></think>" := by
  decide

/-- C9 amended.  The stripper is idempotent on every input whose stripped
output no longer contains both markers (in particular on any output missing
an opening or a closing marker): a second application is then a no-op. -/
theorem stripThink_idempotent_of_missing (s : String)
    (h : findSub openTag (stripThink s).data = none ∨
      findSub closeTag (stripThink s).data = none) :
    stripThink (stripThink s) = stripThink s := by
  show (⟨stripThinkL (stripThink s).data⟩ : String) = stripThink s
  rw [stripThinkL_id_of_missing _ h]

theorem stripThink_idempotent_witness :
    stripThink (stripThink "<think>a</think>b") = stripThink "<think>a</think>b" :=
  stripThink_idempotent_of_missing "<think>a</think>b" (Or.inl (by decide))

/-! ### C6 — synthesis fallback -/

/-- Every part of a Python-style join is a contiguous substring of the
joined string. -/
theorem mem_data_infix_joinSep (sep : String) :
    ∀ (l : List String) (x : String), x ∈ l →
      x.data <:+: (joinSep sep l).data := by
  intro l
  induction l with
  | nil => intro x hx; cases hx
  | cons y rest ih =>
    intro x hx
    cases rest with
    | nil =>
      rcases List.mem_singleton.mp hx with rfl
      exact List.infix_refl _
    | cons z rest' =>
      rcases List.mem_cons.mp hx with rfl | hx'
      · refine ⟨[], sep.data ++ (joinSep sep (z :: rest')).data, ?_⟩
        simp [joinSep, String.data_append]
      · show x.data <:+: (y ++ sep ++ joinSep sep (z :: rest')).data
        have hsuf : (joinSep sep (z :: rest')).data <:+:
            (y ++ sep ++ joinSep sep (z :: rest')).data := by
          rw [String.data_append, String.data_append]
          exact (List.suffix_append _ _).isInfix
        exact (ih x hx').trans hsuf

/-- C6.  When the completion call of `_generate_comprehensive_response`
raises, the function returns the deterministic fallback — the trace result
strings joined with a separator after a fixed prefix — and therefore the
returned string contains every trace entry's result as a contiguous
substring. -/
theorem synth_fallback_contains_results (emsg : String)
    (tool_results : List ExecutedTool) (r : ExecutedTool)
    (hmem : r ∈ tool_results) :
    generate_comprehensive_response (.error emsg) tool_results =
        fallbackResponse tool_results ∧
      r.result.data <:+:
        (generate_comprehensive_response (.error emsg) tool_results).data := by
  refine ⟨rfl, ?_⟩
  show r.result.data <:+: (fallbackResponse tool_results).data
  unfold fallbackResponse
  rw [String.data_append]
  have hj := mem_data_infix_joinSep " " (tool_results.map (·.result)) r.result
    (List.mem_map_of_mem _ hmem)
  exact hj.trans (List.suffix_append _ _).isInfix

theorem synth_fallback_witness :
    generate_comprehensive_response (.error "model down")
        [⟨some "t1", [], "R1"⟩, ⟨some "t2", [], "R2"⟩] =
      fallbackResponse [⟨some "t1", [], "R1"⟩, ⟨some "t2", [], "R2"⟩] ∧
    (ExecutedTool.mk (some "t2") [] "R2").result.data <:+:
      (generate_comprehensive_response (.error "model down")
        [⟨some "t1", [], "R1"⟩, ⟨some "t2", [], "R2"⟩]).data :=
  synth_fallback_contains_results "model down"
    [⟨some "t1", [], "R1"⟩, ⟨some "t2", [], "R2"⟩]
    ⟨some "t2", [], "R2"⟩ (by decide)

/-! ### C7 — conversation history -/

/-- An environment whose planning transport call raises immediately. -/
def planDownEnv : Env where
  planChat := fun _ => .error "connection refused"
  jsonLoads := fun _ => .ok .falsy
  callTool := fun _ _ => .ok [⟨"ok"⟩]
  synthChat := fun _ => .ok "synthesized"
  directChat := .ok "direct answer"

/-- C7 counterexample.  The claim says the history is appended to after
every assistant reply.  When the planning call raises on the first round of
a turn, the turn still produces an assistant reply (the outer handler's
error string, which `start_chat` prints as the assistant message), yet the
history gains only the user entry — no assistant entry is appended. -/
theorem history_missing_assistant_entry :
    (processQueryAutomatically planDownEnv 1 "hi" []).response =
        "Error in query processing: connection refused" ∧
      (processQueryAutomatically planDownEnv 1 "hi" []).history =
        [⟨"user", "hi"⟩] := by
  refine ⟨rfl, rfl⟩

/-- The history written by the no-more-tools branch, by terminal path: the
synthesis branch appends the assistant reply; the direct branch appends the
assistant reply exactly when the direct completion call succeeds, and
leaves the history untouched when it raises. -/
theorem noMoreTools_history_cases (env : Env) (trace : List ExecutedTool)
    (hist : List Msg) :
    ((noMoreTools env trace hist).path = .synthesis →
      (noMoreTools env trace hist).history =
        hist ++ [⟨"assistant", (noMoreTools env trace hist).response⟩]) ∧
    (∀ s, (noMoreTools env trace hist).path = .direct →
      env.directChat = .ok s →
      (noMoreTools env trace hist).history =
        hist ++ [⟨"assistant", (noMoreTools env trace hist).response⟩]) ∧
    (∀ e, (noMoreTools env trace hist).path = .direct →
      env.directChat = .error e →
      (noMoreTools env trace hist).history = hist) ∧
    ((noMoreTools env trace hist).path = .errorString →
      (noMoreTools env trace hist).history = hist) ∧
    ((noMoreTools env trace hist).path = .diverged →
      (noMoreTools env trace hist).history = hist) := by
  cases trace with
  | nil =>
    refine ⟨fun h => ?_, fun s _ hd => ?_, fun e _ hd => ?_,
      fun h => ?_, fun h => ?_⟩
    · simp [noMoreTools] at h
    · simp [noMoreTools, generate_direct_response, hd]
    · simp [noMoreTools, generate_direct_response, hd]
    · simp [noMoreTools] at h
    · simp [noMoreTools] at h
  | cons a as =>
    refine ⟨fun _ => rfl, fun s h _ => ?_, fun e h _ => ?_,
      fun h => ?_, fun h => ?_⟩ <;> simp [noMoreTools] at h

/-- The history written by the outer exception handler, by terminal path:
with an empty trace, the error string is returned without touching the
history; with a non-empty trace, synthesis appends the assistant reply. -/
theorem outerCatch_history_cases (env : Env) (trace : List ExecutedTool)
    (hist : List Msg) (e : String) :
    ((outerCatch env trace hist e).path = .synthesis →
      (outerCatch env trace hist e).history =
        hist ++ [⟨"assistant", (outerCatch env trace hist e).response⟩]) ∧
    (∀ s, (outerCatch env trace hist e).path = .direct →
      env.directChat = .ok s →
      (outerCatch env trace hist e).history =
        hist ++ [⟨"assistant", (outerCatch env trace hist e).response⟩]) ∧
    (∀ e', (outerCatch env trace hist e).path = .direct →
      env.directChat = .error e' →
      (outerCatch env trace hist e).history = hist) ∧
    ((outerCatch env trace hist e).path = .errorString →
      (outerCatch env trace hist e).history = hist) ∧
    ((outerCatch env trace hist e).path = .diverged →
      (outerCatch env trace hist e).history = hist) := by
  cases trace with
  | nil =>
    refine ⟨fun h => ?_, fun s h _ => ?_, fun e' h _ => ?_,
      fun _ => rfl, fun h => ?_⟩ <;> simp [outerCatch] at h
  | cons a as =>
    refine ⟨fun _ => rfl, fun s h _ => ?_, fun e' h _ => ?_,
      fun h => ?_, fun h => ?_⟩ <;> simp [outerCatch] at h

/-- The history written by one turn of the executor, by terminal path: the
synthesis path appends the assistant reply to the history handed in; the
direct path appends it exactly when the direct completion call succeeds;
the error-string path and fuel exhaustion leave the history untouched. -/
theorem executeTools_history_cases (env : Env) :
    ∀ (fuel : Nat) (trace : List ExecutedTool) (hist : List Msg),
      ((executeTools env fuel trace hist).path = .synthesis →
        (executeTools env fuel trace hist).history =
          hist ++ [⟨"assistant", (executeTools env fuel trace hist).response⟩]) ∧
      (∀ s, (executeTools env fuel trace hist).path = .direct →
        env.directChat = .ok s →
        (executeTools env fuel trace hist).history =
          hist ++ [⟨"assistant", (executeTools env fuel trace hist).response⟩]) ∧
      (∀ e, (executeTools env fuel trace hist).path = .direct →
        env.directChat = .error e →
        (executeTools env fuel trace hist).history = hist) ∧
      ((executeTools env fuel trace hist).path = .errorString →
        (executeTools env fuel trace hist).history = hist) ∧
      ((executeTools env fuel trace hist).path = .diverged →
        (executeTools env fuel trace hist).history = hist) := by
  intro fuel
  induction fuel with
  | zero =>
    intro trace hist
    refine ⟨fun h => ?_, fun s h _ => ?_, fun e h _ => ?_,
      fun h => ?_, fun _ => rfl⟩ <;> simp [executeTools] at h
  | succ n ih =>
    intro trace hist
    cases hpo : planOutcome env trace with
    | transportError e =>
      have heq : executeTools env (n + 1) trace hist =
          outerCatch env trace hist e := by simp only [executeTools, hpo]
      rw [heq]; exact outerCatch_history_cases env trace hist e
    | emptyText =>
      have heq : executeTools env (n + 1) trace hist =
          noMoreTools env trace hist := by simp only [executeTools, hpo]
      rw [heq]; exact noMoreTools_history_cases env trace hist
    | parseError =>
      have heq : executeTools env (n + 1) trace hist =
          noMoreTools env trace hist := by simp only [executeTools, hpo]
      rw [heq]; exact noMoreTools_history_cases env trace hist
    | parsed v =>
      cases v with
      | falsy =>
        have heq : executeTools env (n + 1) trace hist =
            noMoreTools env trace hist := by simp only [executeTools, hpo]
        rw [heq]; exact noMoreTools_history_cases env trace hist
      | truthyNonList e =>
        have heq : executeTools env (n + 1) trace hist =
            outerCatch env trace hist e := by simp only [executeTools, hpo]
        rw [heq]; exact outerCatch_history_cases env trace hist e
      | list items =>
        cases items with
        | nil =>
          have heq : executeTools env (n + 1) trace hist =
              noMoreTools env trace hist := by simp only [executeTools, hpo]
          rw [heq]; exact noMoreTools_history_cases env trace hist
        | cons hd tl =>
          cases hd with
          | nonObj e =>
            have heq : executeTools env (n + 1) trace hist =
                outerCatch env trace hist e := by simp only [executeTools, hpo]
            rw [heq]; exact outerCatch_history_cases env trace hist e
          | obj tool params? =>
            have heq : executeTools env (n + 1) trace hist =
                executeTools env n
                  (trace ++ [dispatchEntry env tool (params?.getD [])]) hist := by
              simp only [executeTools, hpo]
            rw [heq]
            exact ih (trace ++ [dispatchEntry env tool (params?.getD [])]) hist

/-- C7 amended.  The conversation history is append-only and ordered: a
turn first appends the user query, and then appends the assistant reply
exactly on the synthesis path and on a successful direct response; on the
error paths — the outer handler's error string with an empty trace, and a
direct-response failure — the reply is shown but not recorded, and the
history keeps only the user entry.  The history is reset to empty only by
the explicit `clear` command; `quit`, `tools` and blank input leave it
untouched, and no operation removes or reorders existing entries. -/
theorem loopStep_history (env : Env) (fuel : Nat) (hist : List Msg) :
    loopStep env fuel hist .clear = [] ∧
      loopStep env fuel hist .quit = hist ∧
      loopStep env fuel hist .tools = hist ∧
      loopStep env fuel hist .blank = hist ∧
      ∀ q,
        (∃ tail,
          loopStep env fuel hist (.query q) = hist ++ ⟨"user", q⟩ :: tail ∧
            (tail = [] ∨ ∃ r, tail = [⟨"assistant", r⟩])) ∧
        ((processQueryAutomatically env fuel q hist).path = .synthesis →
          loopStep env fuel hist (.query q) = hist ++ [⟨"user", q⟩,
            ⟨"assistant", (processQueryAutomatically env fuel q hist).response⟩]) ∧
        (∀ s, (processQueryAutomatically env fuel q hist).path = .direct →
          env.directChat = .ok s →
          loopStep env fuel hist (.query q) = hist ++ [⟨"user", q⟩,
            ⟨"assistant", (processQueryAutomatically env fuel q hist).response⟩]) ∧
        (∀ e, (processQueryAutomatically env fuel q hist).path = .direct →
          env.directChat = .error e →
          loopStep env fuel hist (.query q) = hist ++ [⟨"user", q⟩]) ∧
        ((processQueryAutomatically env fuel q hist).path = .errorString →
          loopStep env fuel hist (.query q) = hist ++ [⟨"user", q⟩]) ∧
        ((processQueryAutomatically env fuel q hist).path = .diverged →
          loopStep env fuel hist (.query q) = hist ++ [⟨"user", q⟩]) := by
  refine ⟨rfl, rfl, rfl, rfl, fun q => ?_⟩
  obtain ⟨hsyn, hdok, hderr, herr, hdiv⟩ :=
    executeTools_history_cases env fuel [] (hist ++ [⟨"user", q⟩])
  refine ⟨?_, fun h => ?_, fun s h hd => ?_, fun e h hd => ?_,
    fun h => ?_, fun h => ?_⟩
  · obtain ⟨tail, h1, h2⟩ :=
      executeTools_history_append env fuel [] (hist ++ [⟨"user", q⟩])
    refine ⟨tail, ?_, h2⟩
    show (processQueryAutomatically env fuel q hist).history = _
    rw [processQueryAutomatically, h1, List.append_assoc]
    rfl
  · show (processQueryAutomatically env fuel q hist).history = _
    rw [processQueryAutomatically, hsyn h, List.append_assoc]
    rfl
  · show (processQueryAutomatically env fuel q hist).history = _
    rw [processQueryAutomatically, hdok s h hd, List.append_assoc]
    rfl
  · exact hderr e h hd
  · exact herr h
  · exact hdiv h

/-- A turn of the scripted environment `wEnv` ends in synthesis, and the
history gains the user entry followed by the assistant entry carrying the
turn's response. -/
theorem loopStep_history_witness :
    loopStep wEnv 3 [] (.query "What is the stock price of Apple Inc") =
      [] ++ [⟨"user", "What is the stock price of Apple Inc"⟩,
        ⟨"assistant", (processQueryAutomatically wEnv 3
          "What is the stock price of Apple Inc" []).response⟩] :=
  ((loopStep_history wEnv 3 []).2.2.2.2
    "What is the stock price of Apple Inc").2.1 (by decide)

/-! ### C8 — tool result extraction -/

/-- C8.  On a successful dispatch the entry recorded at the current end of
the trace carries the requested tool name, the requested parameters, and as
its result the text of the first content part of the returned sequence —
`resultText` — which is the literal `"No result"` exactly when the returned
sequence is empty. -/
theorem executeTools_records_first_part (env : Env)
    (trace : List ExecutedTool) (hist : List Msg) (fuel : Nat)
    (tool : String) (p : Params) (rest : List PyItem) (res : ToolResult)
    (hplan : planOutcome env trace =
      .parsed (.list (.obj (some tool) (some p) :: rest)))
    (hcall : env.callTool (some tool) p = .ok res) :
    (executeTools env (fuel + 1) trace hist).trace[trace.length]? =
        some ⟨some tool, p, resultText res⟩ ∧
      resultText [] = "No result" ∧
      (∀ c parts, resultText (c :: parts) = c.text) := by
  refine ⟨?_, rfl, fun c parts => rfl⟩
  have step : executeTools env (fuel + 1) trace hist =
      executeTools env fuel (trace ++ [⟨some tool, p, resultText res⟩]) hist := by
    simp only [executeTools, hplan, Option.getD, dispatchEntry, hcall]
  rw [step]
  obtain ⟨ext, hext⟩ :=
    executeTools_trace_append env fuel (trace ++ [⟨some tool, p, resultText res⟩]) hist
  rw [hext, List.append_assoc, List.getElem?_append_right (Nat.le_refl _)]
  simp

/-- A one-round environment whose registry answers the price request with a
two-part result. -/
def firstPartEnv : Env where
  planChat := fun tr => .ok (if tr.length = 0 then "round0" else "done")
  jsonLoads := fun s =>
    if s = "round0" then
      .ok (.list [.obj (some "get_stock_price") (some [("ticker", "AAPL")])])
    else .ok (.list [])
  callTool := fun _ _ => .ok [⟨"190.5"⟩, ⟨"ignored part"⟩]
  synthChat := fun _ => .ok "final answer"
  directChat := .ok "direct answer"

theorem executeTools_records_first_part_witness :
    (executeTools firstPartEnv (1 + 1) [] []).trace[([] : List ExecutedTool).length]? =
        some ⟨some "get_stock_price", [("ticker", "AAPL")],
          resultText [⟨"190.5"⟩, ⟨"ignored part"⟩]⟩ ∧
      resultText [] = "No result" ∧
      (∀ c parts, resultText (c :: parts) = c.text) :=
  executeTools_records_first_part firstPartEnv [] [] 1 "get_stock_price"
    [("ticker", "AAPL")] [] [⟨"190.5"⟩, ⟨"ignored part"⟩] rfl rfl

/-! ### C10 — defaulted keys in the first plan object -/

/-- C10.  Missing keys in the first object of a parsed non-empty array are
defaulted, not rejected.  A missing `params` key is replaced by the empty
parameter mapping before dispatch: the round appends the dispatch entry for
the empty mapping and continues with the next planning round.  A missing
`tool` key leads to a dispatch with a `None` tool name; when that dispatch
raises, the round appends the entry `{tool_name: None, parameters,
result: "Error: " ++ str(e)}` — recorded at the current end of the trace —
and likewise continues with the next planning round. -/
theorem executeTools_missing_keys (env : Env) (trace : List ExecutedTool)
    (hist : List Msg) (fuel : Nat) :
    (∀ tool rest,
      planOutcome env trace = .parsed (.list (.obj (some tool) none :: rest)) →
      executeTools env (fuel + 1) trace hist =
          executeTools env fuel (trace ++ [dispatchEntry env (some tool) []]) hist ∧
        (dispatchEntry env (some tool) []).parameters = []) ∧
    (∀ p rest emsg,
      planOutcome env trace = .parsed (.list (.obj none (some p) :: rest)) →
      env.callTool none p = .error emsg →
      executeTools env (fuel + 1) trace hist =
          executeTools env fuel (trace ++ [⟨none, p, "Error: " ++ emsg⟩]) hist ∧
        (executeTools env (fuel + 1) trace hist).trace[trace.length]? =
          some ⟨none, p, "Error: " ++ emsg⟩) := by
  constructor
  · intro tool rest h
    refine ⟨?_, (dispatchEntry_fields env (some tool) []).2⟩
    simp only [executeTools, h, Option.getD_none]
  · intro p rest emsg h herr
    have step : executeTools env (fuel + 1) trace hist =
        executeTools env fuel (trace ++ [⟨none, p, "Error: " ++ emsg⟩]) hist := by
      simp only [executeTools, h, Option.getD_some, dispatchEntry, herr]
    refine ⟨step, ?_⟩
    rw [step]
    obtain ⟨ext, hext⟩ :=
      executeTools_trace_append env fuel (trace ++ [⟨none, p, "Error: " ++ emsg⟩]) hist
    rw [hext, List.append_assoc, List.getElem?_append_right (Nat.le_refl _)]
    simp

/-- A one-round environment whose planner's first object omits the `params`
key. -/
def missingKeysEnv : Env where
  planChat := fun tr => .ok (if tr.length = 0 then "round0" else "done")
  jsonLoads := fun s =>
    if s = "round0" then .ok (.list [.obj (some "get_stock_news") none])
    else .ok (.list [])
  callTool := fun _ _ => .ok [⟨"no recent news"⟩]
  synthChat := fun _ => .ok "final answer"
  directChat := .ok "direct answer"

theorem executeTools_missing_keys_witness :
    executeTools missingKeysEnv (1 + 1) [] [] =
        executeTools missingKeysEnv 1
          ([] ++ [dispatchEntry missingKeysEnv (some "get_stock_news") []]) [] ∧
      (dispatchEntry missingKeysEnv (some "get_stock_news") []).parameters = [] :=
  (executeTools_missing_keys missingKeysEnv [] [] 1).1 "get_stock_news" [] rfl
